import Mathlib

/-!
# onesocket: registry, groups, routing and delivery

A shallow embedding of `src/onesocket.go`.

* Go strings are Lean `String`s, compared with `=`.
* A Go `[]string` is a `Slice`: the visible elements plus the rest of the
  backing array up to the capacity, so that in-place `append` and the
  aliasing inside `LeaveGroup` can be followed step by step.
* A panic is `none`.
* The package variables `channels` and `connections` are passed explicitly.
* Effects on sockets and on the log are collected in a `Trace`.
-/

namespace Onesocket

/-! ## Slices of strings -/

/-- A Go `[]string` value. `elems` is `s[0:len(s)]`, `spare` is the part of the
backing array between `len(s)` and `cap(s)`. The nil slice has both empty. -/
structure Slice where
  elems : List String
  spare : List String
deriving DecidableEq, Repr

namespace Slice

/-- The nil slice, the zero value of the field `Groups`. -/
def empty : Slice := ⟨[], []⟩

/-- Go `len(s)`. -/
def len (s : Slice) : Nat := s.elems.length

/-- Go `cap(s)`. -/
def cap (s : Slice) : Nat := s.elems.length + s.spare.length

/-- The backing array seen from the slice's pointer, `cap(s)` cells long. -/
def backing (s : Slice) : List String := s.elems ++ s.spare

/-- Go `s[:high]`: allowed up to the capacity, panics beyond it. The result
shares the backing array. -/
def sliceTo (s : Slice) (high : Nat) : Option Slice :=
  if high ≤ s.cap then some ⟨s.backing.take high, s.backing.drop high⟩ else none

/-- Go `s[low:]` read as the source operand of `append`: the values of
`s[low:len(s)]`; panics when `low > len(s)`. -/
def sliceFrom (s : Slice) (low : Nat) : Option (List String) :=
  if low ≤ s.len then some (s.elems.drop low) else none

end Slice

/-- Go `append(s, xs...)`. When the values fit in the capacity they are written
into the backing array in place; otherwise a fresh zeroed array is allocated,
whose spare capacity `growCap n` (for the new length `n`) is the runtime's
choice and is left as a parameter. -/
def appendSlice (growCap : Nat → Nat) (s : Slice) (xs : List String) : Slice :=
  if xs.length ≤ s.spare.length then
    ⟨s.elems ++ xs, s.spare.drop xs.length⟩
  else
    ⟨s.elems ++ xs, List.replicate (growCap (s.elems.length + xs.length)) ""⟩

/-! ## Connections and group membership -/

/-- The transport handle `websocket.Conn`, named by the underlying network
connection. Copies of the struct write to the same peer. -/
abbrev Sock := Nat

/-- Go `type Connection struct`. -/
structure Connection where
  Uuid : String
  Groups : Slice
  socketConnection : Sock
deriving DecidableEq, Repr

/-- Go `RemoveIndex`: `append(s[:index], s[index+1:]...)`. -/
def RemoveIndex (growCap : Nat → Nat) (s : Slice) (index : Nat) : Option Slice :=
  (s.sliceTo index).bind fun head =>
    (s.sliceFrom (index + 1)).map fun tail => appendSlice growCap head tail

/-- Go `JoinGroup`: return at the first entry equal to `name`, else append.
The pointer argument is the struct it points at; the result is that struct
after the call. -/
def JoinGroup (growCap : Nat → Nat) (connection : Connection) (name : String) : Connection :=
  if connection.Groups.elems.any (fun value => value = name) then connection
  else { connection with Groups := appendSlice growCap connection.Groups [name] }

/-- The `range` loop of `LeaveGroup`. The range operand is evaluated once, so
the loop runs over the original length (`remaining` iterations are left,
`index` is the current one), while `value` is read from the backing array at
each iteration. `RemoveIndex` always appends within the capacity (see
`RemoveIndex_in_place`), so the ranged slice and `connection.Groups` (`cur`)
keep sharing one array. A read
outside the array cannot happen (the index stays below the capacity) and
would be a panic. -/
def LeaveGroup.loop (growCap : Nat → Nat) (name : String) : Nat → Nat → Slice → Option Slice
  | 0, _, cur => some cur
  | remaining + 1, index, cur =>
    match cur.backing[index]? with
    | none => none
    | some value =>
      if value = name then
        (RemoveIndex growCap cur index).bind fun next =>
          LeaveGroup.loop growCap name remaining (index + 1) next
      else
        LeaveGroup.loop growCap name remaining (index + 1) cur

/-- Go `LeaveGroup`; `none` when a `RemoveIndex` call panics. -/
def LeaveGroup (growCap : Nat → Nat) (connection : Connection) (name : String) :
    Option Connection :=
  (LeaveGroup.loop growCap name connection.Groups.len 0 connection.Groups).map
    fun groups => { connection with Groups := groups }

/-! ## The package maps -/

/-- A Go `map[string]V` as the list of its entries. Go leaves the iteration
order of a map unspecified: the order of the list stands for the order the
runtime picks, and every statement below is made for an arbitrary list. -/
abbrev GoMap (V : Type) := List (String × V)

namespace GoMap

variable {V : Type}

/-- Go `m[key] = value`: the entry under `key` is replaced or created. -/
def assign (m : GoMap V) (key : String) (value : V) : GoMap V :=
  (key, value) :: m.filter (fun entry => entry.1 ≠ key)

/-- Go `delete(m, key)`: no-op when the key is absent. -/
def delete (m : GoMap V) (key : String) : GoMap V :=
  m.filter (fun entry => entry.1 ≠ key)

/-- Go `value, ok := m[key]`. -/
def lookup (m : GoMap V) (key : String) : Option V :=
  (m.find? (fun entry => entry.1 = key)).map (fun entry => entry.2)

/-- The values met by `for _, value := range m`. -/
def values (m : GoMap V) : List V := m.map (fun entry => entry.2)

end GoMap

/-- The package variable `connections`, a `map[string]Connection`: it stores
struct values, not pointers. -/
abbrev Registry := GoMap Connection

/-- The canonical text form returned by `uuid.New().String()` of the external
uuid library is 36 characters long; only that length is recorded. -/
def IsUuidString (s : String) : Prop := s.length = 36

instance : DecidablePred IsUuidString := fun s => inferInstanceAs (Decidable (s.length = 36))

/-- Go `connect`. `newUuid` is the value of `uuid.New().String()`, and
`socketConnection` the (non-nil) handle that is dereferenced and copied.
The struct is stored in the map by value and returned by value: the caller's
copy and the stored copy are two separate structs. -/
def connect (newUuid : String) (socketConnection : Sock) (connections : Registry) :
    Connection × Registry :=
  let connection : Connection :=
    { Uuid := newUuid, Groups := Slice.empty, socketConnection := socketConnection }
  (connection, connections.assign connection.Uuid connection)

/-- Go `disconnect`. -/
def disconnect (uuid : String) (connections : Registry) : Registry :=
  connections.delete uuid

/-- The registry states the program can be in: `connections` starts empty and
is only written by `connect` and `disconnect`. The last rule closes the states
under reordering, since the iteration order of a Go map is unspecified. -/
inductive Reachable : Registry → Prop
  | empty : Reachable []
  | connect (connections : Registry) (newUuid : String) (socketConnection : Sock) :
      Reachable connections → IsUuidString newUuid →
      Reachable (connect newUuid socketConnection connections).2
  | disconnect (connections : Registry) (uuid : String) :
      Reachable connections → Reachable (disconnect uuid connections)
  | reorder (connections other : Registry) :
      Reachable connections → List.Perm connections other → Reachable other

/-! ## Routing and dispatch -/

section Dispatch

variable {H M : Type}

/-- Go `inChannelData`. `Message` is the decoded JSON object, opaque here;
`Connection` is the struct the pointer refers to (the read loop's local copy). -/
structure inChannelData (M : Type) where
  Channel : String
  RequestId : String
  Message : M
  messageType : Int
  Connection : Connection

/-- One `go function(connection, messageType, message)` statement. -/
structure Invocation (H M : Type) where
  function : H
  connection : Connection
  inDataType : Int
  inData : M

/-- The two package maps. -/
structure State (H : Type) where
  channels : GoMap H
  connections : Registry

/-- Go `On`: `channels[channel] = function`. -/
def On (channels : GoMap H) (channel : String) (function : H) : GoMap H :=
  channels.assign channel function

/-- One iteration of the loop of `processChan`: the state after it and the
handlers it started. -/
def dispatch (st : State H) (data : inChannelData M) : State H × List (Invocation H M) :=
  match st.channels.lookup data.Channel with
  | some function => (st, [⟨function, data.Connection, data.messageType, data.Message⟩])
  | none => (st, [])

/-- Go `processChan` over the envelopes received from `socketDataChannel`. -/
def processChan (st : State H) : List (inChannelData M) → State H × List (Invocation H M)
  | [] => (st, [])
  | data :: rest =>
    let r := dispatch st data
    let r' := processChan r.1 rest
    (r'.1, r.2 ++ r'.2)

/-- The routing table after the calls `On(channel, function)` of `regs`, in
order, on the empty table. -/
def buildChannels (regs : List (String × H)) : GoMap H :=
  regs.foldl (fun channels reg => On channels reg.1 reg.2) []

/-- The handler of the last registration under `channel`, if there is one. -/
def lastRegistered (regs : List (String × H)) (channel : String) : Option H :=
  ((regs.filter (fun reg => reg.1 = channel)).getLast?).map (fun reg => reg.2)

end Dispatch

/-! ## Delivery -/

/-- One call `conn.socketConnection.WriteMessage(outDataType, data)`, with the
registry value `conn` it was made on. -/
structure WriteAttempt where
  conn : Connection
  messageType : Int
  data : String
deriving DecidableEq, Repr

/-- What a delivery call did: the writes it attempted, in order, and the lines
it logged. The Go functions return nothing, so this is all a caller can see. -/
structure Trace where
  writes : List WriteAttempt
  log : List String
deriving DecidableEq, Repr

/-- Nothing done yet. -/
def Trace.empty : Trace := ⟨[], []⟩

/-- The connections written to, one entry per attempt. -/
def Trace.recipients (t : Trace) : List Connection := t.writes.map (fun w => w.conn)

section Delivery

variable {M : Type}

/-- The block each delivery function runs for a chosen connection: build the
envelope, `json.Marshal` it, and on success write it, logging a write error.
`marshal channel outData` is the result of `json.Marshal` (`none` for an
error); `writeErr k` is the error returned by the `k`-th `WriteMessage` call of
the operation (`none` for a nil error). -/
def send (marshal : String → M → Option String) (writeErr : Nat → Option String)
    (t : Trace) (conn : Connection) (outDataType : Int) (channel : String) (outData : M) :
    Trace :=
  match marshal channel outData with
  | some data =>
    let written : Trace := { t with writes := t.writes ++ [⟨conn, outDataType, data⟩] }
    match writeErr t.writes.length with
    | some err => { written with log := written.log ++ ["[emit][error] -> " ++ err] }
    | none => written
  | none => t

/-- Go `Emit`. -/
def Emit (marshal : String → M → Option String) (writeErr : Nat → Option String)
    (connection : Connection) (outDataType : Int) (channel : String) (outData : M) : Trace :=
  send marshal writeErr Trace.empty connection outDataType channel outData

/-- Go `Broadcast`; `excludeConnection` is `none` for a nil pointer. -/
def Broadcast (marshal : String → M → Option String) (writeErr : Nat → Option String)
    (connections : Registry) (excludeConnection : Option Connection) (outDataType : Int)
    (channel : String) (outData : M) : Trace :=
  connections.foldl (fun t entry =>
    let conn := entry.2
    let uuid := match excludeConnection with
      | some c => c.Uuid
      | none => ""
    if conn.Uuid ≠ uuid then send marshal writeErr t conn outDataType channel outData
    else t) Trace.empty

/-- Go `EmitToClient`: a full scan of the registry. -/
def EmitToClient (marshal : String → M → Option String) (writeErr : Nat → Option String)
    (connections : Registry) (uuid : String) (channel : String) (outDataType : Int)
    (outData : M) : Trace :=
  connections.foldl (fun t entry =>
    let conn := entry.2
    if conn.Uuid = uuid then send marshal writeErr t conn outDataType channel outData
    else t) Trace.empty

/-- Go `EmitToGroup`: for every stored connection, one write per entry of its
stored `Groups` equal to `name`. The first parameter of the Go function (a
connection) is unused and is left out. -/
def EmitToGroup (marshal : String → M → Option String) (writeErr : Nat → Option String)
    (connections : Registry) (outDataType : Int) (name : String) (channel : String)
    (outData : M) : Trace :=
  connections.foldl (fun t entry =>
    let conn := entry.2
    conn.Groups.elems.foldl (fun t group =>
      if group = name then send marshal writeErr t conn outDataType channel outData
      else t) t) Trace.empty

end Delivery

/-- The writes one run of the `send` block makes on `conn`: the encoded
envelope once, or nothing when `json.Marshal` failed. -/
def frames {M : Type} (marshal : String → M → Option String) (conn : Connection)
    (outDataType : Int) (channel : String) (outData : M) : List WriteAttempt :=
  (marshal channel outData).toList.map fun data => ⟨conn, outDataType, data⟩

/-- The log the write errors `writeErr` leave after `n` writes. -/
def errorLog (writeErr : Nat → Option String) (n : Nat) : List String :=
  ((List.range n).filterMap writeErr).map fun err => "[emit][error] -> " ++ err

/-- What holds of every registry the program builds: one entry per key, each
stored under its own `Uuid`, which came from the uuid library, and each with
the `Groups` it was stored with by `connect`, the nil slice. -/
def Registry.WF (connections : Registry) : Prop :=
  (connections.map fun entry => entry.1).Nodup
    ∧ ∀ entry ∈ connections,
        entry.2.Uuid = entry.1 ∧ IsUuidString entry.1 ∧ entry.2.Groups = Slice.empty

/-! ## Sequences of group operations -/

/-- A call of `JoinGroup` or of `LeaveGroup` with its group name. -/
inductive GroupOp where
  | join (name : String)
  | leave (name : String)
deriving DecidableEq, Repr

/-- Run the calls in order on one connection; `none` when one of them panics. -/
def runGroupOps (growCap : Nat → Nat) : List GroupOp → Connection → Option Connection
  | [], connection => some connection
  | GroupOp.join name :: rest, connection =>
    runGroupOps growCap rest (JoinGroup growCap connection name)
  | GroupOp.leave name :: rest, connection =>
    (LeaveGroup growCap connection name).bind (runGroupOps growCap rest)

/-! ## Slices: removal in place -/

theorem sliceTo_split (pre rest spare : List String) :
    Slice.sliceTo ⟨pre ++ rest, spare⟩ pre.length = some ⟨pre, rest ++ spare⟩ := by
  have h1 : pre.length ≤ (pre ++ rest).length + spare.length := by
    simp only [List.length_append]; omega
  have h2 : List.take pre.length (pre ++ rest ++ spare) = pre := by
    rw [List.append_assoc, List.take_left]
  have h3 : List.drop pre.length (pre ++ rest ++ spare) = rest ++ spare := by
    rw [List.append_assoc, List.drop_left]
  simp only [Slice.sliceTo, Slice.cap, Slice.backing, h1, if_true, h2, h3]

theorem sliceFrom_split (pre post spare : List String) (x : String) :
    Slice.sliceFrom ⟨pre ++ x :: post, spare⟩ (pre.length + 1) = some post := by
  have h2 : pre.length + 1 ≤ (pre ++ x :: post).length := by
    simp only [List.length_append, List.length_cons]; omega
  have h3 : List.drop (pre.length + 1) (pre ++ x :: post) = post := by
    rw [List.drop_append_eq_append_drop]
    simp
  simp only [Slice.sliceFrom, Slice.len, h2, if_true, h3]

theorem RemoveIndex_split (growCap : Nat → Nat) (pre post : List String) (x : String)
    (spare : List String) :
    RemoveIndex growCap ⟨pre ++ x :: post, spare⟩ pre.length
      = some ⟨pre ++ post, (x :: post).drop post.length ++ spare⟩ := by
  have h3 : post.length ≤ (x :: post ++ spare).length := by
    simp only [List.length_append, List.length_cons]; omega
  have h4 : List.drop post.length (x :: post ++ spare)
      = List.drop post.length (x :: post) ++ spare := by
    rw [List.drop_append_of_le_length (by simp)]
  simp only [RemoveIndex, sliceTo_split, sliceFrom_split, Option.bind_some, Option.map_some,
    Option.some_bind, Option.map_some', appendSlice, h3, if_true, h4]

theorem RemoveIndex_out_of_range (growCap : Nat → Nat) (s : Slice) (index : Nat)
    (h : s.elems.length ≤ index) : RemoveIndex growCap s index = none := by
  have h2 : ¬ (index + 1 ≤ s.elems.length) := by omega
  unfold RemoveIndex
  cases s.sliceTo index <;> simp [Slice.sliceFrom, Slice.len, h2]

theorem RemoveIndex_in_place (growCap : Nat → Nat) (s r : Slice) (index : Nat)
    (h : RemoveIndex growCap s index = some r) :
    r.cap = s.cap ∧ ∀ other : Nat → Nat, RemoveIndex other s index = some r := by
  by_cases hlt : index < s.elems.length
  · obtain ⟨elems, spare⟩ := s
    have hsplit : elems = elems.take index ++ elems[index] :: elems.drop (index + 1) := by
      rw [← List.drop_eq_getElem_cons hlt, List.take_append_drop]
    have hlen : (elems.take index).length = index := List.length_take_of_le (Nat.le_of_lt hlt)
    generalize elems.take index = pre at hsplit hlen
    generalize elems[index] = x at hsplit
    generalize elems.drop (index + 1) = post at hsplit
    subst hsplit
    subst hlen
    rw [RemoveIndex_split] at h
    cases h
    refine ⟨?_, fun other => RemoveIndex_split other pre post x spare⟩
    simp only [Slice.cap, List.length_append, List.length_drop, List.length_cons]
    omega
  · rw [RemoveIndex_out_of_range growCap s index (Nat.le_of_not_lt hlt)] at h
    cases h

/-! ## The loop of `LeaveGroup` -/

theorem loop_skip (growCap : Nat → Nat) (name : String) :
    ∀ (m r index : Nat) (cur : Slice),
      (∀ j, index ≤ j → j < index + m → ∃ v, cur.backing[j]? = some v ∧ v ≠ name) →
      LeaveGroup.loop growCap name (m + r) index cur
        = LeaveGroup.loop growCap name r (index + m) cur := by
  intro m
  induction m with
  | zero => intro r index cur _; simp
  | succ m ih =>
    intro r index cur h
    obtain ⟨v, hv, hne⟩ := h index (Nat.le_refl _) (by omega)
    have e : m + 1 + r = (m + r) + 1 := by omega
    rw [e, LeaveGroup.loop, hv]
    simp only [hne, if_false]
    rw [ih r (index + 1) cur (fun j h1 h2 => h j (by omega) (by omega))]
    congr 1
    omega

theorem getElem?_of_not_mem_left (pre rest : List String) (name : String)
    (hpre : name ∉ pre) (j : Nat) (hj : j < pre.length) :
    ∃ v, (pre ++ rest)[j]? = some v ∧ v ≠ name := by
  refine ⟨pre[j], ?_, ?_⟩
  · rw [List.getElem?_append_left hj, List.getElem?_eq_getElem hj]
  · intro h
    exact hpre (h ▸ List.getElem_mem hj)

theorem loop_absent (growCap : Nat → Nat) (name : String) (elems spare : List String)
    (h : name ∉ elems) :
    LeaveGroup.loop growCap name elems.length 0 ⟨elems, spare⟩ = some ⟨elems, spare⟩ := by
  have := loop_skip growCap name elems.length 0 0 ⟨elems, spare⟩ (by
    intro j _ hj
    exact getElem?_of_not_mem_left elems spare name h j (by omega))
  simp only [Nat.add_zero, Nat.zero_add] at this
  rw [this, LeaveGroup.loop]

theorem mem_of_mem_drop_length_cons (x : String) (post : List String) (hne : post ≠ []) :
    ∀ z ∈ (x :: post).drop post.length, z ∈ post := by
  intro z hz
  cases post with
  | nil => exact absurd rfl hne
  | cons y ys =>
    have e : List.drop (y :: ys).length (x :: y :: ys) = List.drop ys.length (y :: ys) := rfl
    rw [e] at hz
    exact List.mem_of_mem_drop hz

theorem loop_single (growCap : Nat → Nat) (name : String) (pre post spare : List String)
    (hpre : name ∉ pre) (hpost : name ∉ post) :
    LeaveGroup.loop growCap name (pre ++ name :: post).length 0 ⟨pre ++ name :: post, spare⟩
      = some ⟨pre ++ post, (name :: post).drop post.length ++ spare⟩ := by
  have e : (pre ++ name :: post).length = pre.length + (post.length + 1) := by simp
  have hb0 : Slice.backing ⟨pre ++ name :: post, spare⟩ = pre ++ (name :: post ++ spare) := by
    simp [Slice.backing]
  rw [e, loop_skip growCap name pre.length (post.length + 1) 0 _ (by
    intro j _ hj
    rw [hb0]
    exact getElem?_of_not_mem_left pre _ name hpre j (by omega))]
  have hread : (Slice.backing ⟨pre ++ name :: post, spare⟩)[0 + pre.length]? = some name := by
    rw [hb0, Nat.zero_add, List.getElem?_append_right (Nat.le_refl _)]
    simp
  rw [LeaveGroup.loop, hread]
  simp only [if_true, Nat.zero_add, RemoveIndex_split, Option.some_bind]
  have := loop_skip growCap name post.length 0 (pre.length + 1)
    ⟨pre ++ post, (name :: post).drop post.length ++ spare⟩ (by
    intro j h1 h2
    have hb : Slice.backing ⟨pre ++ post, (name :: post).drop post.length ++ spare⟩
        = pre ++ ((post ++ (name :: post).drop post.length) ++ spare) := by
      simp [Slice.backing]
    rw [hb, List.getElem?_append_right (by omega)]
    have hk : j - pre.length < (post ++ (name :: post).drop post.length).length := by
      simp; omega
    rw [List.getElem?_append_left hk, List.getElem?_eq_getElem hk]
    refine ⟨_, rfl, ?_⟩
    intro hv
    apply hpost
    rw [← hv]
    have hin := List.getElem_mem hk
    rcases List.mem_append.mp hin with hin | hin
    · exact hin
    · refine mem_of_mem_drop_length_cons name post ?_ _ hin
      intro h0
      rw [h0] at h2
      simp at h2
      omega)
  simp only [Nat.add_zero] at this
  rw [this, LeaveGroup.loop]

theorem LeaveGroup_groups (growCap : Nat → Nat) (connection : Connection) (name : String)
    (h : connection.Groups.elems.Nodup) :
    ∃ groups, LeaveGroup.loop growCap name connection.Groups.len 0 connection.Groups
        = some groups
      ∧ groups.elems = connection.Groups.elems.erase name
      ∧ (name ∉ connection.Groups.elems → groups = connection.Groups) := by
  obtain ⟨uuid, ⟨elems, spare⟩, sock⟩ := connection
  simp only [Slice.len] at h ⊢
  by_cases hin : name ∈ elems
  · obtain ⟨pre, post, rfl⟩ := List.append_of_mem hin
    have hnd := List.nodup_append.mp h
    have hpost : name ∉ post := (List.nodup_cons.mp hnd.2.1).1
    have hpre : name ∉ pre := fun hm => hnd.2.2 hm (List.mem_cons_self _ _)
    refine ⟨_, loop_single growCap name pre post spare hpre hpost, ?_, fun hno => absurd hin hno⟩
    rw [List.erase_append_right _ hpre, List.erase_cons_head]
  · refine ⟨_, loop_absent growCap name elems spare hin, ?_, fun _ => rfl⟩
    exact (List.erase_of_not_mem hin).symm

theorem JoinGroup_elems (growCap : Nat → Nat) (connection : Connection) (name : String) :
    (JoinGroup growCap connection name).Groups.elems
      = if name ∈ connection.Groups.elems then connection.Groups.elems
        else connection.Groups.elems ++ [name] := by
  unfold JoinGroup
  by_cases hin : name ∈ connection.Groups.elems
  · have : connection.Groups.elems.any (fun value => decide (value = name)) = true := by
      simp only [List.any_eq_true, decide_eq_true_eq]
      exact ⟨name, hin, rfl⟩
    simp only [this, if_true, hin]
  · have : connection.Groups.elems.any (fun value => decide (value = name)) = false := by
      rw [Bool.eq_false_iff]
      simp only [ne_eq, List.any_eq_true, decide_eq_true_eq, not_exists, not_and]
      intro x hx hxn
      exact hin (hxn ▸ hx)
    simp only [this, Bool.false_eq_true, if_false, hin, appendSlice]
    split <;> rfl

theorem runGroupOps_nodup (growCap : Nat → Nat) :
    ∀ (ops : List GroupOp) (connection : Connection), connection.Groups.elems.Nodup →
      ∃ result, runGroupOps growCap ops connection = some result
        ∧ result.Groups.elems.Nodup := by
  intro ops
  induction ops with
  | nil => intro connection h; exact ⟨connection, rfl, h⟩
  | cons op rest ih =>
    intro connection h
    cases op with
    | join name =>
      simp only [runGroupOps]
      apply ih
      rw [JoinGroup_elems]
      split
      · exact h
      · rename_i hin
        exact List.nodup_append.mpr ⟨h, List.nodup_singleton _, by
          intro a ha hb
          rw [List.mem_singleton] at hb
          exact hin (hb ▸ ha)⟩
    | leave name =>
      obtain ⟨groups, hloop, helems, _⟩ := LeaveGroup_groups growCap connection name h
      simp only [runGroupOps, LeaveGroup, hloop, Option.map_some', Option.some_bind]
      apply ih
      show groups.elems.Nodup
      rw [helems]
      exact h.erase name

theorem JoinGroup_of_mem (growCap : Nat → Nat) (connection : Connection) (name : String)
    (h : name ∈ connection.Groups.elems) : JoinGroup growCap connection name = connection := by
  have : connection.Groups.elems.any (fun value => decide (value = name)) = true := by
    simp only [List.any_eq_true, decide_eq_true_eq]
    exact ⟨name, h, rfl⟩
  simp only [JoinGroup, this, if_true]

theorem mem_JoinGroup (growCap : Nat → Nat) (connection : Connection) (name : String) :
    name ∈ (JoinGroup growCap connection name).Groups.elems := by
  rw [JoinGroup_elems]
  split
  · assumption
  · simp

/-! ## Group membership: the claims -/

/-- C10: on a connection whose `Groups` has no duplicates, `LeaveGroup` does not
panic (every `RemoveIndex` call is within the list), it changes nothing but
`Groups`, the resulting list is the original one with the entry equal to
`name` erased and the other entries kept in order, and when `name` is absent
the connection is unchanged. -/
theorem LeaveGroup_nodup (growCap : Nat → Nat) (connection : Connection) (name : String)
    (h : connection.Groups.elems.Nodup) :
    ∃ result, LeaveGroup growCap connection name = some result
      ∧ result.Uuid = connection.Uuid
      ∧ result.socketConnection = connection.socketConnection
      ∧ result.Groups.elems = connection.Groups.elems.erase name
      ∧ result.Groups.elems = connection.Groups.elems.filter (fun g => g ≠ name)
      ∧ name ∉ result.Groups.elems
      ∧ (name ∉ connection.Groups.elems → result = connection) := by
  obtain ⟨groups, hloop, helems, habs⟩ := LeaveGroup_groups growCap connection name h
  refine ⟨{ connection with Groups := groups }, ?_, rfl, rfl, helems, ?_, ?_, ?_⟩
  · simp only [LeaveGroup, hloop, Option.map_some']
  · show groups.elems = _
    rw [helems, h.erase_eq_filter]
    congr 1
    funext g
    by_cases hg : g = name <;> simp [hg]
  · show name ∉ groups.elems
    rw [helems]
    exact h.not_mem_erase
  · intro hno
    rw [habs hno]

/-- A witness for C10: "b" leaves ["a", "b", "c"], stored in an array of
capacity 4. -/
theorem LeaveGroup_nodup_witness :
    ∃ result, LeaveGroup (fun n => n) ⟨"u", ⟨["a", "b", "c"], [""]⟩, 7⟩ "b" = some result
      ∧ result.Uuid = "u"
      ∧ result.socketConnection = 7
      ∧ result.Groups.elems = ["a", "c"]
      ∧ result.Groups.elems = ["a", "b", "c"].filter (fun g => g ≠ "b")
      ∧ "b" ∉ result.Groups.elems
      ∧ ("b" ∉ ["a", "b", "c"] → result = ⟨"u", ⟨["a", "b", "c"], [""]⟩, 7⟩) :=
  LeaveGroup_nodup (fun n => n) ⟨"u", ⟨["a", "b", "c"], [""]⟩, 7⟩ "b" (by decide)

/-- C9: a connection returned by `connect` starts with an empty `Groups`, and
after any finite sequence of `JoinGroup` and `LeaveGroup` calls with arbitrary
names every call has returned (no panic) and `Groups` has no duplicates. -/
theorem groups_no_duplicates (growCap : Nat → Nat) (newUuid : String) (socketConnection : Sock)
    (connections : Registry) (ops : List GroupOp) :
    (connect newUuid socketConnection connections).1.Groups.elems = []
      ∧ ∃ result,
          runGroupOps growCap ops (connect newUuid socketConnection connections).1 = some result
            ∧ result.Groups.elems.Nodup :=
  ⟨rfl, runGroupOps_nodup growCap ops _ List.nodup_nil⟩

/-- C6: `JoinGroup` is idempotent: a second call with the same name leaves the
connection as the first call left it; from a list without `name` the result is
the old list followed by `name`, which then occurs exactly once; and a list
that already holds `name` is left as it is. -/
theorem JoinGroup_idempotent (growCap : Nat → Nat) (connection : Connection) (name : String) :
    JoinGroup growCap (JoinGroup growCap connection name) name
        = JoinGroup growCap connection name
      ∧ (name ∉ connection.Groups.elems →
          (JoinGroup growCap connection name).Groups.elems
              = connection.Groups.elems ++ [name]
            ∧ (JoinGroup growCap connection name).Groups.elems.count name = 1)
      ∧ (name ∈ connection.Groups.elems → JoinGroup growCap connection name = connection) := by
  refine ⟨JoinGroup_of_mem growCap _ name (mem_JoinGroup growCap connection name), ?_,
    JoinGroup_of_mem growCap connection name⟩
  intro hno
  have e : (JoinGroup growCap connection name).Groups.elems
      = connection.Groups.elems ++ [name] := by
    rw [JoinGroup_elems, if_neg hno]
  refine ⟨e, ?_⟩
  rw [e, List.count_append, List.count_eq_zero_of_not_mem hno]
  simp

/-- A witness for C6: "b" joins a connection whose groups are ["a"], and "a"
joins it again. -/
theorem JoinGroup_idempotent_witness :
    (JoinGroup (fun n => n) (JoinGroup (fun n => n) ⟨"u", ⟨["a"], []⟩, 7⟩ "b") "b"
        = JoinGroup (fun n => n) ⟨"u", ⟨["a"], []⟩, 7⟩ "b")
      ∧ (JoinGroup (fun n => n) ⟨"u", ⟨["a"], []⟩, 7⟩ "b").Groups.elems = ["a", "b"]
      ∧ (JoinGroup (fun n => n) ⟨"u", ⟨["a"], []⟩, 7⟩ "b").Groups.elems.count "b" = 1
      ∧ JoinGroup (fun n => n) ⟨"u", ⟨["a"], []⟩, 7⟩ "a" = ⟨"u", ⟨["a"], []⟩, 7⟩ :=
  ⟨(JoinGroup_idempotent (fun n => n) ⟨"u", ⟨["a"], []⟩, 7⟩ "b").1,
    ((JoinGroup_idempotent (fun n => n) ⟨"u", ⟨["a"], []⟩, 7⟩ "b").2.1 (by decide)).1,
    ((JoinGroup_idempotent (fun n => n) ⟨"u", ⟨["a"], []⟩, 7⟩ "b").2.1 (by decide)).2,
    (JoinGroup_idempotent (fun n => n) ⟨"u", ⟨["a"], []⟩, 7⟩ "a").2.2 (by decide)⟩

/-- C2, evaluated on the code: with the name stored twice, `LeaveGroup` does
not remove all occurrences. On ["g", "g"] the second `RemoveIndex` call is
made with index 1 on a list of length 1 and panics; on ["g", "g", "a"] the call
returns with ["g", "a"], where "g" is still a member. This holds whatever spare
capacity the slice has. -/
theorem LeaveGroup_duplicates_remain (growCap : Nat → Nat) (spare : List String) :
    LeaveGroup growCap ⟨"u", ⟨["g", "g"], spare⟩, 7⟩ "g" = none
      ∧ LeaveGroup growCap ⟨"u", ⟨["g", "g", "a"], spare⟩, 7⟩ "g"
          = some ⟨"u", ⟨["g", "a"], "a" :: spare⟩, 7⟩
      ∧ "g" ∈ ["g", "a"] := by
  refine ⟨?_, ?_, by decide⟩
  · have h := RemoveIndex_split growCap [] ["g"] "g" spare
    have h2 := RemoveIndex_out_of_range growCap ⟨["g"], "g" :: spare⟩ 1 (Nat.le_refl 1)
    simp only [List.nil_append, List.length_nil] at h
    simp [LeaveGroup, LeaveGroup.loop, Slice.len, Slice.backing, h]
    exact h2
  · have h := RemoveIndex_split growCap [] ["g", "a"] "g" spare
    simp only [List.nil_append, List.length_nil] at h
    simp [LeaveGroup, LeaveGroup.loop, Slice.len, Slice.backing, h]

/-! ## The registry -/

theorem keys_filter_nodup {V : Type} (m : GoMap V) (p : String × V → Bool)
    (h : (m.map fun entry => entry.1).Nodup) :
    ((m.filter p).map fun entry => entry.1).Nodup :=
  List.Nodup.sublist (List.Sublist.map _ (List.filter_sublist m)) h

theorem Reachable.wf {connections : Registry} (h : Reachable connections) :
    Registry.WF connections := by
  induction h with
  | empty => exact ⟨List.nodup_nil, fun _ h => absurd h (List.not_mem_nil _)⟩
  | connect connections newUuid socketConnection _ hu ih =>
    refine ⟨?_, ?_⟩
    · simp only [Onesocket.connect, GoMap.assign, List.map_cons]
      refine List.nodup_cons.mpr ⟨?_, keys_filter_nodup _ _ ih.1⟩
      intro hm
      obtain ⟨e, he, hk⟩ := List.mem_map.mp hm
      have := (List.mem_filter.mp he).2
      simp only [ne_eq, decide_not, Bool.not_eq_true', decide_eq_false_iff_not] at this
      exact this hk
    · intro entry he
      simp only [Onesocket.connect, GoMap.assign, List.mem_cons] at he
      rcases he with rfl | he
      · exact ⟨rfl, hu, rfl⟩
      · exact ih.2 entry (List.mem_filter.mp he).1
  | disconnect connections uuid _ ih =>
    exact ⟨keys_filter_nodup _ _ ih.1, fun entry he => ih.2 entry (List.mem_filter.mp he).1⟩
  | reorder connections other _ hp ih =>
    exact ⟨(List.Perm.nodup_iff (hp.map _)).mp ih.1, fun entry he => ih.2 entry (hp.mem_iff.mpr he)⟩

theorem IsUuidString.ne_empty {s : String} (h : IsUuidString s) : s ≠ "" := by
  intro h0
  rw [h0] at h
  exact absurd h (by decide)

theorem filter_key_eq_find {V : Type} (m : GoMap V) (key : String)
    (h : (m.map fun entry => entry.1).Nodup) :
    m.filter (fun entry => entry.1 = key) = (m.find? (fun entry => entry.1 = key)).toList := by
  induction m with
  | nil => rfl
  | cons e rest ih =>
    rw [List.map_cons, List.nodup_cons] at h
    by_cases hk : e.1 = key
    · have hrest : rest.filter (fun entry => decide (entry.1 = key)) = [] := by
        rw [List.filter_eq_nil_iff]
        intro a ha
        simp only [decide_eq_true_eq]
        intro hak
        exact h.1 (List.mem_map.mpr ⟨a, ha, hak.trans hk.symm⟩)
      simp [List.filter_cons, List.find?_cons, hk, hrest]
    · simp [List.filter_cons, List.find?_cons, hk, ih h.2]

theorem lookup_delete {V : Type} (m : GoMap V) (key : String) :
    (m.delete key).lookup key = none := by
  simp only [GoMap.lookup, GoMap.delete, Option.map_eq_none', List.find?_eq_none]
  intro e he
  have := (List.mem_filter.mp he).2
  simpa using this

theorem find?_filter_of_imp {α : Type} (l : List α) (p q : α → Bool)
    (h : ∀ a, p a = true → q a = true) : (l.filter q).find? p = l.find? p := by
  induction l with
  | nil => rfl
  | cons a l ih =>
    cases hq : q a
    · have hp : p a = false := by
        cases hp : p a
        · rfl
        · rw [h a hp] at hq; exact absurd hq (by decide)
      rw [List.filter_cons_of_neg (by simp [hq]), List.find?_cons, hp, ih]
    · rw [List.filter_cons_of_pos hq, List.find?_cons, List.find?_cons, ih]

theorem lookup_assign {V : Type} (m : GoMap V) (key key' : String) (value : V) :
    (m.assign key value).lookup key'
      = if key = key' then some value else m.lookup key' := by
  by_cases hk : key = key'
  · simp [GoMap.lookup, GoMap.assign, List.find?_cons, hk]
  · simp only [GoMap.lookup, GoMap.assign, List.find?_cons, hk, decide_False, if_false]
    rw [find?_filter_of_imp]
    intro a ha
    simp only [decide_eq_true_eq] at ha
    simp only [ne_eq, decide_not, Bool.not_eq_true', decide_eq_false_iff_not]
    intro hak
    exact hk (hak.symm.trans ha)

/-! ## Delivery: what is written and what is logged -/

section DeliveryLemmas

variable {M : Type}

theorem send_writes (marshal : String → M → Option String) (writeErr : Nat → Option String)
    (t : Trace) (conn : Connection) (outDataType : Int) (channel : String) (outData : M) :
    (send marshal writeErr t conn outDataType channel outData).writes
      = t.writes ++ frames marshal conn outDataType channel outData := by
  unfold send frames
  cases marshal channel outData with
  | none => simp
  | some data => cases writeErr t.writes.length <;> simp

theorem send_log (marshal : String → M → Option String) (writeErr : Nat → Option String)
    (t : Trace) (conn : Connection) (outDataType : Int) (channel : String) (outData : M)
    (h : t.log = errorLog writeErr t.writes.length) :
    (send marshal writeErr t conn outDataType channel outData).log
      = errorLog writeErr
          (send marshal writeErr t conn outDataType channel outData).writes.length := by
  unfold send
  cases marshal channel outData with
  | none => exact h
  | some data =>
    cases hw : writeErr t.writes.length <;>
      simp [errorLog, List.range_succ, List.filterMap_append, hw, h]

theorem foldl_writes {α : Type} (step : Trace → α → Trace) (g : α → List WriteAttempt)
    (h : ∀ t a, (step t a).writes = t.writes ++ g a) :
    ∀ (l : List α) (t : Trace), (l.foldl step t).writes = t.writes ++ l.flatMap g := by
  intro l
  induction l with
  | nil => intro t; simp
  | cons a l ih => intro t; simp [List.foldl_cons, ih, h, List.append_assoc]

theorem foldl_preserves {α : Type} (step : Trace → α → Trace) (P : Trace → Prop)
    (h : ∀ t a, P t → P (step t a)) :
    ∀ (l : List α) (t : Trace), P t → P (l.foldl step t) := by
  intro l
  induction l with
  | nil => intro t ht; exact ht
  | cons a l ih => intro t ht; exact ih _ (h t a ht)

theorem flatMap_if_singleton {α β : Type} (l : List α) (p : α → Prop) [DecidablePred p]
    (f : α → β) :
    l.flatMap (fun a => if p a then [f a] else []) = (l.filter fun a => p a).map f := by
  induction l with
  | nil => rfl
  | cons a l ih =>
    by_cases hp : p a <;> simp [List.flatMap_cons, List.filter_cons, hp, ih]

theorem frames_of_marshal (marshal : String → M → Option String) (conn : Connection)
    (outDataType : Int) (channel : String) (outData : M) (data : String)
    (hm : marshal channel outData = some data) :
    frames marshal conn outDataType channel outData = [⟨conn, outDataType, data⟩] := by
  simp [frames, hm]

theorem Broadcast_writes (marshal : String → M → Option String)
    (writeErr : Nat → Option String) (connections : Registry)
    (excludeConnection : Option Connection) (outDataType : Int) (channel : String)
    (outData : M) :
    (Broadcast marshal writeErr connections excludeConnection outDataType channel outData).writes
      = connections.flatMap fun entry =>
          if entry.2.Uuid ≠ (match excludeConnection with
              | some c => c.Uuid
              | none => "")
          then frames marshal entry.2 outDataType channel outData else [] := by
  unfold Broadcast
  rw [foldl_writes _ (fun entry =>
      if entry.2.Uuid ≠ (match excludeConnection with
          | some c => c.Uuid
          | none => "")
      then frames marshal entry.2 outDataType channel outData else [])]
  · simp [Trace.empty]
  · intro t a
    dsimp only
    split
    · exact send_writes _ _ _ _ _ _ _
    · simp

theorem EmitToClient_writes (marshal : String → M → Option String)
    (writeErr : Nat → Option String) (connections : Registry) (uuid : String)
    (channel : String) (outDataType : Int) (outData : M) :
    (EmitToClient marshal writeErr connections uuid channel outDataType outData).writes
      = connections.flatMap fun entry =>
          if entry.2.Uuid = uuid then frames marshal entry.2 outDataType channel outData
          else [] := by
  unfold EmitToClient
  rw [foldl_writes _ (fun entry =>
      if entry.2.Uuid = uuid then frames marshal entry.2 outDataType channel outData else [])]
  · simp [Trace.empty]
  · intro t a
    dsimp only
    split
    · exact send_writes _ _ _ _ _ _ _
    · simp

theorem EmitToGroup_writes (marshal : String → M → Option String)
    (writeErr : Nat → Option String) (connections : Registry) (outDataType : Int)
    (name : String) (channel : String) (outData : M) :
    (EmitToGroup marshal writeErr connections outDataType name channel outData).writes
      = connections.flatMap fun entry =>
          entry.2.Groups.elems.flatMap fun group =>
            if group = name then frames marshal entry.2 outDataType channel outData
            else [] := by
  unfold EmitToGroup
  rw [foldl_writes _ (fun entry =>
      entry.2.Groups.elems.flatMap fun group =>
        if group = name then frames marshal entry.2 outDataType channel outData else [])]
  · simp [Trace.empty]
  · intro t a
    dsimp only
    rw [foldl_writes _ (fun group =>
      if group = name then frames marshal a.2 outDataType channel outData else [])]
    intro t' group
    dsimp only
    split
    · exact send_writes _ _ _ _ _ _ _
    · simp

theorem flatMap_if {α β : Type} (l : List α) (p : α → Prop) [DecidablePred p]
    (g : α → List β) :
    l.flatMap (fun a => if p a then g a else []) = (l.filter fun a => p a).flatMap g := by
  induction l with
  | nil => rfl
  | cons a l ih =>
    by_cases hp : p a <;> simp [List.flatMap_cons, List.filter_cons, hp, ih]

theorem values_filter_uuid (connections : Registry) (hwf : Registry.WF connections)
    (uuid : String) :
    connections.values.filter (fun c => c.Uuid = uuid) = (connections.lookup uuid).toList := by
  have hcongr : connections.filter (fun entry => entry.2.Uuid = uuid)
      = connections.filter (fun entry => entry.1 = uuid) := by
    apply List.filter_congr
    intro entry he
    rw [(hwf.2 entry he).1]
  have hmap : ∀ o : Option (String × Connection),
      (o.map fun entry => entry.2).toList = o.toList.map fun entry => entry.2 := by
    intro o; cases o <;> rfl
  simp only [GoMap.values, GoMap.lookup, hmap]
  rw [← filter_key_eq_find connections uuid hwf.1, ← hcongr, List.filter_map]
  rfl

theorem EmitToClient_writes_wf (marshal : String → M → Option String)
    (writeErr : Nat → Option String) (connections : Registry)
    (hwf : Registry.WF connections) (uuid : String)
    (channel : String) (outDataType : Int) (outData : M) :
    (EmitToClient marshal writeErr connections uuid channel outDataType outData).writes
      = (connections.lookup uuid).toList.flatMap fun c =>
          frames marshal c outDataType channel outData := by
  rw [EmitToClient_writes, flatMap_if connections (fun entry => entry.2.Uuid = uuid)
    (fun entry => frames marshal entry.2 outDataType channel outData),
    ← values_filter_uuid connections hwf uuid]
  simp only [GoMap.values, List.filter_map, List.flatMap_map]
  rfl

theorem send_logged_step (marshal : String → M → Option String)
    (writeErr : Nat → Option String) (conn : Connection) (outDataType : Int)
    (channel : String) (outData : M) (c : Prop) [Decidable c] (t : Trace)
    (h : t.log = errorLog writeErr t.writes.length) :
    (if c then send marshal writeErr t conn outDataType channel outData else t).log
      = errorLog writeErr
          (if c then send marshal writeErr t conn outDataType channel outData
            else t).writes.length := by
  split
  · exact send_log _ _ _ _ _ _ _ h
  · exact h

theorem Broadcast_log (marshal : String → M → Option String)
    (writeErr : Nat → Option String) (connections : Registry)
    (excludeConnection : Option Connection) (outDataType : Int) (channel : String)
    (outData : M) :
    (Broadcast marshal writeErr connections excludeConnection outDataType channel outData).log
      = errorLog writeErr
          (Broadcast marshal writeErr connections excludeConnection outDataType channel
            outData).writes.length := by
  unfold Broadcast
  apply foldl_preserves _ (fun t => t.log = errorLog writeErr t.writes.length)
  · intro t a ht
    exact send_logged_step marshal writeErr _ _ _ _ _ t ht
  · rfl

theorem EmitToClient_log (marshal : String → M → Option String)
    (writeErr : Nat → Option String) (connections : Registry) (uuid : String)
    (channel : String) (outDataType : Int) (outData : M) :
    (EmitToClient marshal writeErr connections uuid channel outDataType outData).log
      = errorLog writeErr
          (EmitToClient marshal writeErr connections uuid channel outDataType
            outData).writes.length := by
  unfold EmitToClient
  apply foldl_preserves _ (fun t => t.log = errorLog writeErr t.writes.length)
  · intro t a ht
    exact send_logged_step marshal writeErr _ _ _ _ _ t ht
  · rfl

theorem EmitToGroup_log (marshal : String → M → Option String)
    (writeErr : Nat → Option String) (connections : Registry) (outDataType : Int)
    (name : String) (channel : String) (outData : M) :
    (EmitToGroup marshal writeErr connections outDataType name channel outData).log
      = errorLog writeErr
          (EmitToGroup marshal writeErr connections outDataType name channel
            outData).writes.length := by
  unfold EmitToGroup
  apply foldl_preserves _ (fun t => t.log = errorLog writeErr t.writes.length)
  · intro t a ht
    apply foldl_preserves _ (fun t => t.log = errorLog writeErr t.writes.length)
    · intro t' group ht'
      exact send_logged_step marshal writeErr _ _ _ _ _ t' ht'
    · exact ht
  · rfl

theorem EmitToGroup_reachable_silent (marshal : String → M → Option String)
    (writeErr : Nat → Option String) (connections : Registry) (outDataType : Int)
    (name : String) (channel : String) (outData : M) (hreach : Reachable connections) :
    (EmitToGroup marshal writeErr connections outDataType name channel outData).writes = [] := by
  rw [EmitToGroup_writes, List.flatMap_eq_nil_iff]
  intro entry he
  rw [(hreach.wf.2 entry he).2.2]
  rfl

end DeliveryLemmas

/-! ## Delivery: the claims -/

section DeliveryClaims

variable {M : Type}

/-- C3: with an envelope that encodes to `data`, in every registry state
`Broadcast` with `excludeConnection = C1` attempts exactly one write of `data`
to each registered connection whose identity differs from the identity of
`C1`, and none to any other; in every registry state the program reaches, at
most one registered connection has the identity of `C1`, and `Broadcast` with a
nil `excludeConnection` attempts exactly one write to each registered
connection, the sender included. -/
theorem Broadcast_recipients (marshal : String → M → Option String)
    (writeErr : Nat → Option String) (connections : Registry) (C1 : Connection)
    (outDataType : Int) (channel : String) (outData : M) (data : String)
    (hm : marshal channel outData = some data) :
    (Broadcast marshal writeErr connections (some C1) outDataType channel outData).writes
        = (connections.values.filter fun c => c.Uuid ≠ C1.Uuid).map
            (fun c => ⟨c, outDataType, data⟩)
      ∧ (Reachable connections →
          (connections.values.filter fun c => c.Uuid = C1.Uuid).length ≤ 1
            ∧ (Broadcast marshal writeErr connections none outDataType channel outData).writes
              = connections.values.map (fun c => ⟨c, outDataType, data⟩)) := by
  refine ⟨?_, fun hreach => ⟨?_, ?_⟩⟩
  · rw [Broadcast_writes]
    simp only [fun conn => frames_of_marshal marshal conn outDataType channel outData data hm]
    rw [flatMap_if_singleton connections (fun entry => entry.2.Uuid ≠ C1.Uuid)
      (fun entry => (⟨entry.2, outDataType, data⟩ : WriteAttempt))]
    simp only [GoMap.values, List.filter_map, List.map_map]
    rfl
  · rw [values_filter_uuid connections hreach.wf]
    cases connections.lookup C1.Uuid <;> simp
  · have hwf := hreach.wf
    rw [Broadcast_writes]
    simp only [fun conn => frames_of_marshal marshal conn outDataType channel outData data hm]
    rw [flatMap_if_singleton connections (fun entry => entry.2.Uuid ≠ "")
      (fun entry => (⟨entry.2, outDataType, data⟩ : WriteAttempt))]
    have hall : connections.filter (fun entry => entry.2.Uuid ≠ "") = connections := by
      rw [List.filter_eq_self]
      intro entry he
      have h2 := hwf.2 entry he
      simp only [ne_eq, decide_not, Bool.not_eq_true', decide_eq_false_iff_not]
      rw [h2.1]
      exact h2.2.1.ne_empty
    rw [hall]
    simp only [GoMap.values, List.map_map]
    rfl

/-- A witness for C3: two registered connections, the first of them excluded,
then nobody excluded. -/
theorem Broadcast_recipients_witness :
    Reachable (connect "00000000-0000-4000-8000-00000000000b" 2
        (connect "00000000-0000-4000-8000-00000000000a" 1 []).2).2
      ∧ (Broadcast (fun channel outData => some (channel ++ ":" ++ outData)) (fun _ => none)
          (connect "00000000-0000-4000-8000-00000000000b" 2
            (connect "00000000-0000-4000-8000-00000000000a" 1 []).2).2
          (some ⟨"00000000-0000-4000-8000-00000000000a", Slice.empty, 1⟩) 1 "chat" "hi").writes
        = [⟨⟨"00000000-0000-4000-8000-00000000000b", Slice.empty, 2⟩, 1, "chat:hi"⟩]
      ∧ (Broadcast (fun channel outData => some (channel ++ ":" ++ outData)) (fun _ => none)
          (connect "00000000-0000-4000-8000-00000000000b" 2
            (connect "00000000-0000-4000-8000-00000000000a" 1 []).2).2
          none 1 "chat" "hi").writes
        = [⟨⟨"00000000-0000-4000-8000-00000000000b", Slice.empty, 2⟩, 1, "chat:hi"⟩,
           ⟨⟨"00000000-0000-4000-8000-00000000000a", Slice.empty, 1⟩, 1, "chat:hi"⟩] :=
  have hreach : Reachable (connect "00000000-0000-4000-8000-00000000000b" 2
      (connect "00000000-0000-4000-8000-00000000000a" 1 []).2).2 :=
    Reachable.connect _ _ _ (Reachable.connect _ _ _ Reachable.empty (by decide)) (by decide)
  have h := Broadcast_recipients (fun channel outData => some (channel ++ ":" ++ outData))
    (fun _ => none)
    (connect "00000000-0000-4000-8000-00000000000b" 2
      (connect "00000000-0000-4000-8000-00000000000a" 1 []).2).2
    ⟨"00000000-0000-4000-8000-00000000000a", Slice.empty, 1⟩ 1 "chat" "hi"
    "chat:hi" (by decide)
  ⟨hreach, h.1.trans (by decide), (h.2 hreach).2.trans (by decide)⟩

/-- C4: in every registry state reached by `connect` and `disconnect`, and for
every identity `uuid`: after `disconnect(uuid)` the identity is no longer
registered and `EmitToClient(uuid, ...)` attempts no write at all; before it,
when `uuid` is registered (to the connection `c`) and the envelope encodes to
`data`, `EmitToClient(uuid, ...)` attempts exactly one write, to `c`. -/
theorem EmitToClient_after_disconnect (marshal : String → M → Option String)
    (writeErr : Nat → Option String) (connections : Registry) (uuid : String)
    (channel : String) (outDataType : Int) (outData : M)
    (hreach : Reachable connections) :
    (disconnect uuid connections).lookup uuid = none
      ∧ (EmitToClient marshal writeErr (disconnect uuid connections) uuid channel outDataType
          outData).writes = []
      ∧ ∀ (c : Connection) (data : String),
          connections.lookup uuid = some c → marshal channel outData = some data →
          (EmitToClient marshal writeErr connections uuid channel outDataType outData).writes
            = [⟨c, outDataType, data⟩] := by
  have hdel : (disconnect uuid connections).lookup uuid = none := lookup_delete connections uuid
  refine ⟨hdel, ?_, ?_⟩
  · rw [EmitToClient_writes_wf _ _ _ (Reachable.disconnect _ uuid hreach).wf, hdel]
    rfl
  · intro c data hc hm
    rw [EmitToClient_writes_wf _ _ _ hreach.wf, hc]
    simp [frames_of_marshal marshal c outDataType channel outData data hm]

/-- A witness for C4: two connections are registered and the first one is
then disconnected. -/
theorem EmitToClient_after_disconnect_witness :
    Reachable (connect "00000000-0000-4000-8000-00000000000b" 2
        (connect "00000000-0000-4000-8000-00000000000a" 1 []).2).2
      ∧ (EmitToClient (fun channel outData => some (channel ++ ":" ++ outData)) (fun _ => none)
          (disconnect "00000000-0000-4000-8000-00000000000a"
            (connect "00000000-0000-4000-8000-00000000000b" 2
              (connect "00000000-0000-4000-8000-00000000000a" 1 []).2).2)
          "00000000-0000-4000-8000-00000000000a" "chat" 1 "hi").writes = []
      ∧ (EmitToClient (fun channel outData => some (channel ++ ":" ++ outData)) (fun _ => none)
          (connect "00000000-0000-4000-8000-00000000000b" 2
            (connect "00000000-0000-4000-8000-00000000000a" 1 []).2).2
          "00000000-0000-4000-8000-00000000000a" "chat" 1 "hi").writes
        = [⟨⟨"00000000-0000-4000-8000-00000000000a", Slice.empty, 1⟩, 1, "chat:hi"⟩] :=
  have hreach : Reachable (connect "00000000-0000-4000-8000-00000000000b" 2
      (connect "00000000-0000-4000-8000-00000000000a" 1 []).2).2 :=
    Reachable.connect _ _ _ (Reachable.connect _ _ _ Reachable.empty (by decide)) (by decide)
  have h := EmitToClient_after_disconnect
    (fun channel outData => some (channel ++ ":" ++ outData)) (fun _ => none) _
    "00000000-0000-4000-8000-00000000000a" "chat" 1 "hi" hreach
  ⟨hreach, h.2.1, h.2.2 _ "chat:hi" (by decide) (by decide)⟩

/-- C5: for every registry state and group name, with an envelope that encodes
to `data`, `EmitToGroup(name)` attempts a write to a connection if and only if
it is a registered connection whose stored `Groups` contains `name`; every
write carries `data`. -/
theorem EmitToGroup_recipients (marshal : String → M → Option String)
    (writeErr : Nat → Option String) (connections : Registry) (outDataType : Int)
    (name : String) (channel : String) (outData : M) (data : String)
    (hm : marshal channel outData = some data) :
    (∀ c : Connection,
        c ∈ (EmitToGroup marshal writeErr connections outDataType name channel
              outData).recipients
          ↔ c ∈ connections.values ∧ name ∈ c.Groups.elems)
      ∧ ∀ w ∈ (EmitToGroup marshal writeErr connections outDataType name channel
            outData).writes, w.messageType = outDataType ∧ w.data = data := by
  have hw : ∀ w : WriteAttempt,
      w ∈ (EmitToGroup marshal writeErr connections outDataType name channel outData).writes
        ↔ ∃ entry ∈ connections, name ∈ entry.2.Groups.elems
            ∧ w = ⟨entry.2, outDataType, data⟩ := by
    intro w
    rw [EmitToGroup_writes]
    simp only [fun conn => frames_of_marshal marshal conn outDataType channel outData data hm,
      List.mem_flatMap]
    constructor
    · rintro ⟨entry, he, group, hg, hw⟩
      split at hw
      · rename_i hgn
        exact ⟨entry, he, hgn ▸ hg, List.mem_singleton.mp hw⟩
      · exact absurd hw (List.not_mem_nil _)
    · rintro ⟨entry, he, hn, rfl⟩
      exact ⟨entry, he, name, hn, by simp⟩
  refine ⟨?_, ?_⟩
  · intro c
    simp only [Trace.recipients, List.mem_map, GoMap.values]
    constructor
    · rintro ⟨w, hwm, rfl⟩
      obtain ⟨entry, he, hn, rfl⟩ := (hw w).mp hwm
      exact ⟨⟨entry, he, rfl⟩, hn⟩
    · rintro ⟨⟨entry, he, rfl⟩, hn⟩
      exact ⟨⟨entry.2, outDataType, data⟩, (hw _).mpr ⟨entry, he, hn, rfl⟩, rfl⟩
  · intro w hwm
    obtain ⟨entry, _, _, rfl⟩ := (hw w).mp hwm
    exact ⟨rfl, rfl⟩

/-- A witness for C5: a registry with one member of "room1" and one connection
outside it. -/
theorem EmitToGroup_recipients_witness :
    (∀ c : Connection,
        c ∈ (EmitToGroup (fun channel outData => some (channel ++ ":" ++ outData))
              (fun _ => none)
              [("a", ⟨"a", ⟨["room1"], []⟩, 1⟩), ("b", ⟨"b", ⟨["room2"], []⟩, 2⟩)]
              1 "room1" "chat" "hi").recipients
          ↔ c ∈ GoMap.values
                [("a", (⟨"a", ⟨["room1"], []⟩, 1⟩ : Connection)),
                 ("b", ⟨"b", ⟨["room2"], []⟩, 2⟩)]
              ∧ "room1" ∈ c.Groups.elems)
      ∧ (EmitToGroup (fun channel outData => some (channel ++ ":" ++ outData))
            (fun _ => none)
            [("a", ⟨"a", ⟨["room1"], []⟩, 1⟩), ("b", ⟨"b", ⟨["room2"], []⟩, 2⟩)]
            1 "room1" "chat" "hi").recipients = [⟨"a", ⟨["room1"], []⟩, 1⟩] :=
  ⟨(EmitToGroup_recipients (fun channel outData => some (channel ++ ":" ++ outData))
      (fun _ => none)
      [("a", ⟨"a", ⟨["room1"], []⟩, 1⟩), ("b", ⟨"b", ⟨["room2"], []⟩, 2⟩)]
      1 "room1" "chat" "hi" "chat:hi" (by decide)).1, by decide⟩

/-- C7: whatever each individual `WriteMessage` call returns, `Broadcast`,
`EmitToClient` and `EmitToGroup` attempt the same writes, in the same order,
as when every write succeeds; the functions return nothing but their trace,
and a write error shows only as one log line per failed write. -/
theorem write_failure_keeps_recipients (marshal : String → M → Option String)
    (writeErr : Nat → Option String) (connections : Registry)
    (excludeConnection : Option Connection) (uuid name : String) (outDataType : Int)
    (channel : String) (outData : M) :
    (Broadcast marshal writeErr connections excludeConnection outDataType channel
          outData).writes
        = (Broadcast marshal (fun _ => none) connections excludeConnection outDataType channel
            outData).writes
      ∧ (EmitToClient marshal writeErr connections uuid channel outDataType outData).writes
        = (EmitToClient marshal (fun _ => none) connections uuid channel outDataType
            outData).writes
      ∧ (EmitToGroup marshal writeErr connections outDataType name channel outData).writes
        = (EmitToGroup marshal (fun _ => none) connections outDataType name channel
            outData).writes
      ∧ (Broadcast marshal writeErr connections excludeConnection outDataType channel
          outData).log
        = errorLog writeErr
            (Broadcast marshal writeErr connections excludeConnection outDataType channel
              outData).writes.length
      ∧ (EmitToClient marshal writeErr connections uuid channel outDataType outData).log
        = errorLog writeErr
            (EmitToClient marshal writeErr connections uuid channel outDataType
              outData).writes.length
      ∧ (EmitToGroup marshal writeErr connections outDataType name channel outData).log
        = errorLog writeErr
            (EmitToGroup marshal writeErr connections outDataType name channel
              outData).writes.length :=
  ⟨by rw [Broadcast_writes, Broadcast_writes],
    by rw [EmitToClient_writes, EmitToClient_writes],
    by rw [EmitToGroup_writes, EmitToGroup_writes],
    Broadcast_log _ _ _ _ _ _ _, EmitToClient_log _ _ _ _ _ _ _, EmitToGroup_log _ _ _ _ _ _ _⟩

/-- C1, evaluated on the code: A, B and C are registered with `connect`,
`JoinGroup("x")` is applied to the connections that `connect` returned for A
and B, which then hold ["x"], while the copies stored in the registry keep
their empty `Groups`; `EmitToGroup` with name "x" and channel "notify" attempts
no write at all, so A and B receive no frame where the scenario expects one
each. -/
theorem EmitToGroup_scenario_writes_nothing :
    (JoinGroup (fun n => n)
        (connect "00000000-0000-4000-8000-00000000000a" 1 []).1 "x").Groups.elems = ["x"]
      ∧ (JoinGroup (fun n => n)
          (connect "00000000-0000-4000-8000-00000000000b" 2
            (connect "00000000-0000-4000-8000-00000000000a" 1 []).2).1 "x").Groups.elems
          = ["x"]
      ∧ (connect "00000000-0000-4000-8000-00000000000c" 3
          (connect "00000000-0000-4000-8000-00000000000b" 2
            (connect "00000000-0000-4000-8000-00000000000a" 1 []).2).2).2
        = [("00000000-0000-4000-8000-00000000000c",
              ⟨"00000000-0000-4000-8000-00000000000c", Slice.empty, 3⟩),
           ("00000000-0000-4000-8000-00000000000b",
              ⟨"00000000-0000-4000-8000-00000000000b", Slice.empty, 2⟩),
           ("00000000-0000-4000-8000-00000000000a",
              ⟨"00000000-0000-4000-8000-00000000000a", Slice.empty, 1⟩)]
      ∧ (EmitToGroup (fun channel outData => some (channel ++ ":" ++ outData)) (fun _ => none)
          (connect "00000000-0000-4000-8000-00000000000c" 3
            (connect "00000000-0000-4000-8000-00000000000b" 2
              (connect "00000000-0000-4000-8000-00000000000a" 1 []).2).2).2
          1 "x" "notify" "n=1").writes = [] := by
  decide

end DeliveryClaims

/-! ## Dispatch -/

section DispatchClaims

variable {H M : Type}

theorem lastRegistered_cons (reg : String × H) (regs : List (String × H)) (channel : String) :
    lastRegistered (reg :: regs) channel
      = if reg.1 = channel then some ((lastRegistered regs channel).getD reg.2)
        else lastRegistered regs channel := by
  unfold lastRegistered
  by_cases h : reg.1 = channel
  · rw [List.filter_cons_of_pos (by simpa using h), List.getLast?_cons, if_pos h]
    cases (List.filter (fun reg => decide (reg.1 = channel)) regs).getLast? <;> rfl
  · rw [List.filter_cons_of_neg (by simpa using h), if_neg h]

theorem lookup_foldl_On (channel : String) :
    ∀ (regs : List (String × H)) (channels : GoMap H),
      (regs.foldl (fun channels reg => On channels reg.1 reg.2) channels).lookup channel
        = (lastRegistered regs channel).or (channels.lookup channel) := by
  intro regs
  induction regs with
  | nil => intro channels; rfl
  | cons reg regs ih =>
    intro channels
    rw [List.foldl_cons, ih, lastRegistered_cons, On, lookup_assign]
    by_cases h : reg.1 = channel
    · rw [if_pos h, if_pos h]
      cases lastRegistered regs channel <;> rfl
    · rw [if_neg h, if_neg h]

theorem lastRegistered_isSome (regs : List (String × H)) (channel : String) :
    (lastRegistered regs channel).isSome ↔ ∃ function, (channel, function) ∈ regs := by
  induction regs with
  | nil => simp [lastRegistered]
  | cons reg regs ih =>
    rw [lastRegistered_cons]
    by_cases h : reg.1 = channel
    · rw [if_pos h]
      simp only [Option.isSome_some, true_iff]
      exact ⟨reg.2, by rw [← h]; exact List.mem_cons_self _ _⟩
    · rw [if_neg h, ih]
      constructor
      · rintro ⟨f, hf⟩
        exact ⟨f, List.mem_cons_of_mem _ hf⟩
      · rintro ⟨f, hf⟩
        rcases List.mem_cons.mp hf with hf | hf
        · exact absurd (by rw [← hf]) h
        · exact ⟨f, hf⟩

theorem processChan_eq (st : State H) (inbox : List (inChannelData M)) :
    processChan st inbox = (st, inbox.flatMap fun data => (dispatch st data).2) := by
  have hst : ∀ data : inChannelData M, (dispatch st data).1 = st := by
    intro data
    unfold dispatch
    split <;> rfl
  induction inbox with
  | nil => rfl
  | cons data rest ih =>
    simp only [processChan, hst, ih, List.flatMap_cons]

/-- C8: for every routing table built by calls of `On` and every inbound
envelope, the dispatch step starts a handler if and only if some registration
was made under a name equal to the envelope's `Channel`; it then starts
exactly one, the handler of the last registration under that name, with the
envelope's connection, message type and message; on a miss it starts nothing;
and in both cases the routing table and the registry are left as they were,
also over a whole run of `processChan`. -/
theorem dispatch_exact_match (regs : List (String × H)) (connections : Registry)
    (data : inChannelData M) (inbox : List (inChannelData M)) :
    (dispatch ⟨buildChannels regs, connections⟩ data).2
        = (lastRegistered regs data.Channel).toList.map
            (fun function => ⟨function, data.Connection, data.messageType, data.Message⟩)
      ∧ ((dispatch ⟨buildChannels regs, connections⟩ data).2 ≠ []
          ↔ ∃ function, (data.Channel, function) ∈ regs)
      ∧ (dispatch ⟨buildChannels regs, connections⟩ data).1
          = ⟨buildChannels regs, connections⟩
      ∧ (processChan ⟨buildChannels regs, connections⟩ inbox).1
          = ⟨buildChannels regs, connections⟩ := by
  have hout : (dispatch ⟨buildChannels regs, connections⟩ data).2
      = (lastRegistered regs data.Channel).toList.map
          (fun function => ⟨function, data.Connection, data.messageType, data.Message⟩) := by
    have h := lookup_foldl_On data.Channel regs ([] : GoMap H)
    have h0 : GoMap.lookup ([] : GoMap H) data.Channel = none := rfl
    rw [h0] at h
    unfold dispatch buildChannels
    simp only [h]
    cases lastRegistered regs data.Channel <;> rfl
  refine ⟨hout, ?_, ?_, ?_⟩
  · rw [hout, ← lastRegistered_isSome regs data.Channel]
    cases lastRegistered regs data.Channel <;> simp
  · unfold dispatch
    split <;> rfl
  · rw [processChan_eq]

end DispatchClaims

end Onesocket
